import Mathlib

/-!
The greeter example server: resource resolution, handlers and transport selection.

A shallow embedding of `src/main.go`.

Go strings are modelled as Lean strings.  Every byte test performed by the
modelled code compares against an ASCII byte, and in UTF-8 text an ASCII byte
is always a whole character, so the tests read the same on characters.

`handleEmbeddedResource` calls `url.Parse` of Go's standard library.  The part
of `url.Parse` that decides the two fields the handler reads (`Scheme` and
`Opaque`) and the parse errors raised on the way is modelled below, statement
by statement.  The authority-and-path stage, which only runs when the text
after the scheme starts with a slash or when there is no scheme, never writes
`Scheme` or `Opaque`; its sole observable effect here is whether it fails, so
it is taken as a parameter (`url.HierStage`) and every theorem holds for each
behaviour of that stage.
-/

namespace Greeter

/-! ## Go's `strings` helpers used by `net/url` -/

namespace strings

/-- Go `strings.Cut(s, sep)` for a one-byte separator: the text before the
first `sep`, the text after it, and whether `sep` occurs. When it does not
occur the first component is all of `s` and the second is empty. -/
def Cut (s : String) (sep : Char) : String × String × Bool :=
  match s.data.dropWhile (fun c => c != sep) with
  | [] => (s, "", false)
  | _ :: after => (⟨s.data.takeWhile (fun c => c != sep)⟩, ⟨after⟩, true)

/-- Go `strings.HasPrefix(s, "/")` and friends, for a one-byte prefix. -/
def HasPrefixChar (s : String) (c : Char) : Bool :=
  s.data.head? == some c

/-- Go `strings.HasSuffix(s, "?")`, for a one-byte suffix. -/
def HasSuffixChar (s : String) (c : Char) : Bool :=
  s.data.getLast? == some c

/-- Go `strings.Count(s, sep)` for a one-byte separator. -/
def Count (s : String) (c : Char) : Nat :=
  s.data.count c

/-- Go `strings.Contains(s, sep)` for a one-byte separator. -/
def ContainsChar (s : String) (c : Char) : Bool :=
  s.data.contains c

/-- Go `strings.ToLower` on ASCII text (a scheme holds ASCII letters, digits,
plus, minus and dot only). -/
def ToLower (s : String) : String :=
  ⟨s.data.map Char.toLower⟩

end strings

/-! ## `net/url` -/

namespace url

/-- The errors `parse` and `setFragment` can produce, by message. -/
inductive ParseErr where
  /-- "net/url: invalid control character in URL" -/
  | invalidControlCharacter
  /-- "missing protocol scheme" -/
  | missingProtocolScheme
  /-- "first path segment in URL cannot contain colon" -/
  | firstPathSegmentColon
  /-- `EscapeError`: "invalid URL escape ..." -/
  | escapeError
  /-- An error of the authority-and-path stage, with its message. -/
  | hier (msg : String)
  deriving DecidableEq, Repr

/-- Go `url.Error`: the operation, the text being parsed and the cause. -/
structure Error where
  Op : String
  URL : String
  Err : ParseErr
  deriving DecidableEq, Repr

/-- The fields of Go `url.URL` that are decided before the authority-and-path
stage.  `User`, `Host`, `Path`, `RawPath`, `OmitHost`, `Fragment` and
`RawFragment` are never read by this program and are left out. -/
structure URL where
  Scheme : String := ""
  Opaque : String := ""
  ForceQuery : Bool := false
  RawQuery : String := ""
  deriving DecidableEq, Repr

/-- The authority-and-path stage of `parse` (from the `//` authority test to
`setPath`), given the lower-cased scheme and the remaining text: `some msg`
when it fails with that message, `none` when it succeeds. -/
abbrev HierStage := String → String → Option String

/-- Go `stringContainsCTLByte`: some byte is below space or is DEL. -/
def stringContainsCTLByte (s : String) : Bool :=
  s.data.any (fun b => b.toNat < ' '.toNat || b.toNat == 0x7f)

/-- The loop of Go `getScheme`, at index `i` with `cs` the bytes from `i` on. -/
def getSchemeLoop (rawURL : String) : Nat → List Char → Except ParseErr (String × String)
  | _, [] => .ok ("", rawURL)
  | i, c :: cs =>
    if ('a'.toNat ≤ c.toNat ∧ c.toNat ≤ 'z'.toNat) ∨ ('A'.toNat ≤ c.toNat ∧ c.toNat ≤ 'Z'.toNat) then
      getSchemeLoop rawURL (i + 1) cs
    else if ('0'.toNat ≤ c.toNat ∧ c.toNat ≤ '9'.toNat) ∨ c = '+' ∨ c = '-' ∨ c = '.' then
      if i = 0 then .ok ("", rawURL) else getSchemeLoop rawURL (i + 1) cs
    else if c = ':' then
      if i = 0 then .error .missingProtocolScheme
      else .ok (⟨rawURL.data.take i⟩, ⟨rawURL.data.drop (i + 1)⟩)
    else
      .ok ("", rawURL)

/-- Go `getScheme`: splits `scheme:rest`; with no valid scheme the scheme is
empty and the rest is the whole text; a leading colon is an error. -/
def getScheme (rawURL : String) : Except ParseErr (String × String) :=
  getSchemeLoop rawURL 0 rawURL.data

/-- Go `ishex`. -/
def ishex (c : Char) : Bool :=
  ('0'.toNat ≤ c.toNat && c.toNat ≤ '9'.toNat) ||
  ('a'.toNat ≤ c.toNat && c.toNat ≤ 'f'.toNat) ||
  ('A'.toNat ≤ c.toNat && c.toNat ≤ 'F'.toNat)

/-- The validation pass of Go `unescape` in a mode other than host or zone
(here: `encodeFragment`): every percent sign is followed by two hex digits. -/
def escapesWellFormed : List Char → Bool
  | [] => true
  | '%' :: a :: b :: rest => ishex a && ishex b && escapesWellFormed rest
  | '%' :: _ => false
  | _ :: rest => escapesWellFormed rest

/-- The query split of Go `parse`: a single trailing question mark sets
`ForceQuery` and is dropped; otherwise the text is cut at the first question
mark.  Returns the remaining text, `ForceQuery` and `RawQuery`. -/
def splitQuery (rest : String) : String × Bool × String :=
  if strings.HasSuffixChar rest '?' && strings.Count rest '?' == 1 then
    (⟨rest.data.dropLast⟩, true, "")
  else
    ((strings.Cut rest '?').1, false, (strings.Cut rest '?').2.1)

/-- Go `parse(rawURL, viaRequest)` with `viaRequest = false`.  For the text
"*" Go sets only `Path`, which is not among the modelled fields. -/
def parse (hier : HierStage) (rawURL : String) : Except ParseErr URL :=
  if stringContainsCTLByte rawURL then .error .invalidControlCharacter
  else if rawURL = "*" then .ok {}
  else
    match getScheme rawURL with
    | .error e => .error e
    | .ok (scheme, rest0) =>
      let scheme := strings.ToLower scheme
      let q := splitQuery rest0
      let rest := q.1
      let u : URL := { Scheme := scheme, ForceQuery := q.2.1, RawQuery := q.2.2 }
      let authorityAndPath : Except ParseErr URL :=
        match hier scheme rest with
        | some msg => .error (.hier msg)
        | none => .ok u
      if !strings.HasPrefixChar rest '/' then
        if scheme != "" then
          .ok { u with Opaque := rest }
        else if strings.ContainsChar (strings.Cut rest '/').1 ':' then
          .error .firstPathSegmentColon
        else authorityAndPath
      else authorityAndPath

/-- Go `url.Parse`: cut off the fragment, parse the rest, then check the
fragment's escapes (`setFragment`). -/
def Parse (hier : HierStage) (rawURL : String) : Except Error URL :=
  let (u, frag, _) := strings.Cut rawURL '#'
  match parse hier u with
  | .error e => .error ⟨"parse", u, e⟩
  | .ok url =>
    if frag = "" then .ok url
    else if escapesWellFormed frag.data then .ok url
    else .error ⟨"parse", rawURL, .escapeError⟩

end url

/-! ## The handlers of `main.go` -/

/-- Go `mcp.ReadResourceParams`: the requested URI. -/
structure ReadResourceParams where
  URI : String
  deriving DecidableEq, Repr

/-- Go `mcp.ResourceContents`, the fields the handler sets. -/
structure ResourceContents where
  URI : String
  MIMEType : String
  Text : String
  deriving DecidableEq, Repr

/-- Go `mcp.ReadResourceResult`. -/
structure ReadResourceResult where
  Contents : List ResourceContents
  deriving DecidableEq, Repr

/-- The three errors `handleEmbeddedResource` returns. -/
inductive ResourceError where
  /-- The error of `url.Parse`, returned unchanged. -/
  | invalidURI (e : url.Error)
  /-- `fmt.Errorf("wrong scheme: %q", u.Scheme)` -/
  | wrongScheme (scheme : String)
  /-- `fmt.Errorf("no embedded resource named %q", key)` -/
  | noEmbeddedResource (key : String)
  deriving DecidableEq, Repr

/-- The map `embeddedResources` of `main.go`. -/
def embeddedResources : List (String × String) :=
  [("info", "This is the hello example server.")]

/-- Go `handleEmbeddedResource`. -/
def handleEmbeddedResource (hier : url.HierStage) (params : ReadResourceParams) :
    Except ResourceError ReadResourceResult :=
  match url.Parse hier params.URI with
  | .error err => .error (.invalidURI err)
  | .ok u =>
    if u.Scheme != "embedded" then .error (.wrongScheme u.Scheme)
    else
      let key := u.Opaque
      match embeddedResources.lookup key with
      | none => .error (.noEmbeddedResource key)
      | some text =>
        .ok { Contents := [{ URI := params.URI, MIMEType := "text/plain", Text := text }] }

/-- Go `HiArgs`. -/
structure HiArgs where
  Name : String
  deriving DecidableEq, Repr

/-- Go `mcp.CallToolParamsFor[HiArgs]`: the decoded arguments. -/
structure CallToolParamsFor where
  Arguments : HiArgs
  deriving DecidableEq, Repr

/-- Go `mcp.TextContent`. -/
structure TextContent where
  Text : String
  deriving DecidableEq, Repr

/-- Go `mcp.Content`; the handlers only build text content. -/
inductive Content where
  | text (c : TextContent)
  deriving DecidableEq, Repr

/-- Go `mcp.CallToolResultFor[struct{}]`, the field the handler sets. -/
structure CallToolResultFor where
  Content : List Content
  deriving DecidableEq, Repr

/-- Go `SayHi`; the error type is Go's `error`, here a message. -/
def SayHi (params : CallToolParamsFor) : Except String CallToolResultFor :=
  .ok { Content := [.text { Text := "Hi " ++ params.Arguments.Name }] }

/-- Go `mcp.GetPromptParams`: `Arguments` is a `map[string]string`. -/
structure GetPromptParams where
  Arguments : String → Option String

/-- Go map indexing `m[k]` on a `map[string]string`: the zero value (the
empty string) when the key is absent. -/
def mapIndex (m : String → Option String) (k : String) : String :=
  (m k).getD ""

/-- Go `mcp.PromptMessage`. -/
structure PromptMessage where
  Role : String
  Content : Content
  deriving DecidableEq, Repr

/-- Go `mcp.GetPromptResult`. -/
structure GetPromptResult where
  Description : String
  Messages : List PromptMessage
  deriving DecidableEq, Repr

/-- Go `PromptHi`. -/
def PromptHi (params : GetPromptParams) : Except String GetPromptResult :=
  .ok { Description := "Code review prompt",
        Messages := [{ Role := "user",
                       Content := .text { Text := "Say hi to " ++ mapIndex params.Arguments "name" } }] }

/-! ## Transport selection in `main` -/

/-- The three command-line flags after `flag.Parse()`. -/
structure Flags where
  httpAddr : String
  sseAddr : String
  stdioFlag : Bool
  deriving DecidableEq, Repr

/-- The declared defaults of the flags `http`, `sse` and `stdio`. -/
def Flags.defaults : Flags :=
  { httpAddr := "localhost:3001", sseAddr := "localhost:3002", stdioFlag := false }

/-- What the main goroutine does, in program order. -/
inductive Event where
  /-- `mcp.NewServer(&mcp.Implementation{Name: name}, nil)` -/
  | newServer (name : String)
  /-- `mcp.AddTool(server, &mcp.Tool{Name: name, ...}, SayHi)` -/
  | addTool (name : String)
  /-- `server.AddPrompt(&mcp.Prompt{Name: name}, PromptHi)` -/
  | addPrompt (name : String)
  /-- `server.AddResource(&mcp.Resource{...}, handleEmbeddedResource)` -/
  | addResource (name mimeType uri : String)
  /-- `make(chan error, capacity)` -/
  | makeChan (capacity : Nat)
  /-- `server.Run` over the logging stdio transport, until it returns. -/
  | serverRunStdin
  /-- `log.Printf` with the formatted message. -/
  | logPrintf (msg : String)
  /-- The `go` statement whose goroutine serves streamable HTTP at `addr`
  and sends the result of `http.ListenAndServe` on `errs`. -/
  | goHTTP (addr : String)
  /-- The `go` statement whose goroutine serves SSE at `addr` and sends the
  result of `http.ListenAndServe` on `errs`. -/
  | goSSE (addr : String)
  /-- `log.Fatalf("Server exited: %v", <-errs)` -/
  | fatalOnErrs
  deriving DecidableEq, Repr

/-- Whether the event starts the HTTP listener. -/
def Event.isHTTP : Event → Bool
  | .goHTTP _ => true
  | _ => false

/-- Whether the event starts the SSE listener. -/
def Event.isSSE : Event → Bool
  | .goSSE _ => true
  | _ => false

/-- Go `main`, as the sequence of events of the main goroutine.  `runErr` is
what `server.Run` returns on the stdio path (`none` for a nil error). -/
def main (flags : Flags) (runErr : Option String) : List Event :=
  let registration : List Event :=
    [.newServer "greeter", .addTool "greet", .addPrompt "greet",
     .addResource "info" "text/plain" "embedded:info", .makeChan 2]
  if flags.stdioFlag then
    registration ++ [.serverRunStdin] ++
      (match runErr with
       | some err => [.logPrintf ("Server failed: " ++ err)]
       | none => [])
  else
    registration ++
      (if flags.httpAddr != "" then [.goHTTP flags.httpAddr] else []) ++
      (if flags.sseAddr != "" then [.goSSE flags.sseAddr] else []) ++
      [.logPrintf "If you want to use stdin/stdout, pass the --stdio flag", .fatalOnErrs]

/-- A sample authority-and-path stage that accepts everything. -/
def hierAccept : url.HierStage := fun _ _ => none

/-! ## Auxiliary lemmas -/

theorem lookup_embeddedResources (key : String) :
    embeddedResources.lookup key =
      if key = "info" then some "This is the hello example server." else none := by
  simp only [embeddedResources, List.lookup]
  by_cases h : key = "info"
  · subst h; rfl
  · have : (key == "info") = false := by simpa using h
    simp [this, h]

theorem strings.Cut_fst_data (s : String) (sep : Char) :
    (strings.Cut s sep).1.data = s.data.takeWhile (fun c => c != sep) := by
  unfold strings.Cut
  split
  · next h =>
    have := List.takeWhile_append_dropWhile (fun c => c != sep) s.data
    rw [h, List.append_nil] at this
    exact this.symm
  · rfl

theorem url.getScheme_embedded (k : String) :
    url.getScheme ("embedded:" ++ k) = .ok ("embedded", k) := by
  have hd : ("embedded:" ++ k).data = 'e' :: 'm' :: 'b' :: 'e' :: 'd' :: 'd' :: 'e' :: 'd' :: ':' :: k.data := by
    rw [String.data_append]; rfl
  unfold url.getScheme
  rw [hd]
  simp [url.getSchemeLoop, hd]

theorem dropLast_eq_takeWhile (c : Char) :
    ∀ l : List Char, l.getLast? = some c → l.count c = 1 →
      l.dropLast = l.takeWhile (fun x => x != c)
  | [], h, _ => by simp at h
  | [x], h, _ => by
    simp at h
    subst h
    simp
  | x :: y :: l, h, hc => by
    have h2 : (y :: l).getLast? = some c := by simpa [List.getLast?_cons_cons] using h
    have hmem : c ∈ y :: l := List.mem_of_getLast?_eq_some h2
    have hx : x ≠ c := by
      intro hxc
      subst hxc
      rw [List.count_cons_self] at hc
      have : List.count x (y :: l) = 0 := by omega
      exact (List.count_eq_zero.mp this) hmem
    have hc2 : (y :: l).count c = 1 := by
      rw [List.count_cons_of_ne hx.symm] at hc
      exact hc
    have ih := dropLast_eq_takeWhile c (y :: l) h2 hc2
    rw [List.dropLast_cons₂, ih]
    simp [List.takeWhile_cons, hx]

theorem url.splitQuery_fst (rest : String) :
    (url.splitQuery rest).1 = (strings.Cut rest '?').1 := by
  unfold url.splitQuery
  split
  · next h =>
    simp only [Bool.and_eq_true, strings.HasSuffixChar, strings.Count, beq_iff_eq] at h
    apply String.ext
    rw [strings.Cut_fst_data]
    exact dropLast_eq_takeWhile '?' rest.data h.1 h.2
  · rfl

theorem strings.Cut_embedded_hash (k : String) :
    strings.Cut ("embedded:" ++ k) '#' =
      ("embedded:" ++ (strings.Cut k '#').1, (strings.Cut k '#').2.1, (strings.Cut k '#').2.2) := by
  have hd : ∀ t : String, ("embedded:" ++ t).data =
      'e' :: 'm' :: 'b' :: 'e' :: 'd' :: 'd' :: 'e' :: 'd' :: ':' :: t.data := by
    intro t; rw [String.data_append]; rfl
  unfold strings.Cut
  rw [hd]
  have h1 : List.dropWhile (fun c => c != '#')
      ('e' :: 'm' :: 'b' :: 'e' :: 'd' :: 'd' :: 'e' :: 'd' :: ':' :: k.data) =
      List.dropWhile (fun c => c != '#') k.data := by
    simp [List.dropWhile_cons]
  have h2 : List.takeWhile (fun c => c != '#')
      ('e' :: 'm' :: 'b' :: 'e' :: 'd' :: 'd' :: 'e' :: 'd' :: ':' :: k.data) =
      'e' :: 'm' :: 'b' :: 'e' :: 'd' :: 'd' :: 'e' :: 'd' :: ':' ::
        List.takeWhile (fun c => c != '#') k.data := by
    simp [List.takeWhile_cons]
  rw [h1, h2]
  cases hk : List.dropWhile (fun c => c != '#') k.data with
  | nil => rfl
  | cons x after =>
    simp only []
    refine Prod.ext ?_ rfl
    apply String.ext
    simp [hd]

theorem url.stringContainsCTLByte_embedded (k : String) :
    url.stringContainsCTLByte ("embedded:" ++ k) = url.stringContainsCTLByte k := by
  unfold url.stringContainsCTLByte
  rw [String.data_append, List.any_append]
  have : ("embedded:".data.any fun b => decide (b.toNat < ' '.toNat) || b.toNat == 0x7f) = false := by
    decide
  rw [this, Bool.false_or]

theorem url.parse_embedded (hier : url.HierStage) (k : String) :
    url.parse hier ("embedded:" ++ k) =
      if url.stringContainsCTLByte k then .error .invalidControlCharacter
      else if !strings.HasPrefixChar (strings.Cut k '?').1 '/' then
        .ok { Scheme := "embedded", Opaque := (strings.Cut k '?').1,
              ForceQuery := (url.splitQuery k).2.1, RawQuery := (url.splitQuery k).2.2 }
      else
        match hier "embedded" (strings.Cut k '?').1 with
        | some msg => .error (.hier msg)
        | none => .ok { Scheme := "embedded", ForceQuery := (url.splitQuery k).2.1,
                        RawQuery := (url.splitQuery k).2.2 } := by
  have hstar : ("embedded:" ++ k) ≠ "*" := by
    intro h
    have := congrArg String.data h
    rw [String.data_append] at this
    simp at this
  have hlow : strings.ToLower "embedded" = "embedded" := by decide
  unfold url.parse
  rw [url.stringContainsCTLByte_embedded, url.getScheme_embedded]
  simp only [hstar, if_false, hlow, url.splitQuery_fst]
  by_cases hc : url.stringContainsCTLByte k = true
  · simp [hc]
  · simp only [hc]
    by_cases hp : strings.HasPrefixChar (strings.Cut k '?').1 '/' = true
    · simp [hp]
    · simp [hp]

theorem url.Parse_embedded (hier : url.HierStage) (k : String) :
    url.Parse hier ("embedded:" ++ k) =
      match url.parse hier ("embedded:" ++ (strings.Cut k '#').1) with
      | .error e => .error ⟨"parse", "embedded:" ++ (strings.Cut k '#').1, e⟩
      | .ok u =>
        if (strings.Cut k '#').2.1 = "" then .ok u
        else if url.escapesWellFormed (strings.Cut k '#').2.1.data then .ok u
        else .error ⟨"parse", "embedded:" ++ k, .escapeError⟩ := by
  unfold url.Parse
  rw [strings.Cut_embedded_hash]

theorem handleEmbeddedResource_ok_iff (hier : url.HierStage) (params : ReadResourceParams)
    (r : ReadResourceResult) :
    handleEmbeddedResource hier params = .ok r ↔
      ∃ u text, url.Parse hier params.URI = .ok u ∧ u.Scheme = "embedded" ∧
        embeddedResources.lookup u.Opaque = some text ∧
        r = ⟨[{ URI := params.URI, MIMEType := "text/plain", Text := text }]⟩ := by
  unfold handleEmbeddedResource
  cases hp : url.Parse hier params.URI with
  | error e => simp
  | ok u =>
    by_cases hs : u.Scheme = "embedded"
    · cases hl : embeddedResources.lookup u.Opaque with
      | none => simp [hs, hl]
      | some text =>
        simp only [hs, bne_self_eq_false, Bool.false_eq_true, if_false, hl, Except.ok.injEq]
        constructor
        · intro h; exact ⟨u, text, rfl, hs, hl, h.symm⟩
        · rintro ⟨u2, t, hu, _, ht, hr⟩
          subst hu
          rw [hl] at ht
          injection ht with ht
          rw [hr, ht]
    · simp [hs]

/-- The URIs "embedded:" ++ k that resolve: no control character before the
fragment, the text before the first `#` and `?` is "info", and the fragment,
if any, has well-formed percent escapes. -/
theorem handleEmbeddedResource_embedded_iff (hier : url.HierStage) (k : String) :
    (∃ r, handleEmbeddedResource hier ⟨"embedded:" ++ k⟩ = .ok r) ↔
      url.stringContainsCTLByte (strings.Cut k '#').1 = false ∧
      (strings.Cut (strings.Cut k '#').1 '?').1 = "info" ∧
      ((strings.Cut k '#').2.1 = "" ∨
        url.escapesWellFormed (strings.Cut k '#').2.1.data = true) := by
  simp only [handleEmbeddedResource_ok_iff, url.Parse_embedded, url.parse_embedded,
    lookup_embeddedResources]
  have hempty : ("" : String) ≠ "info" := by decide
  generalize (strings.Cut (strings.Cut k '#').1 '?').1 = key
  generalize (url.splitQuery (strings.Cut k '#').1).2.1 = fq
  generalize (url.splitQuery (strings.Cut k '#').1).2.2 = rq
  generalize url.stringContainsCTLByte (strings.Cut k '#').1 = ctl
  generalize (strings.Cut k '#').2.1 = frag
  cases ctl
  · by_cases hk : key = "info"
    · subst hk
      have hp : strings.HasPrefixChar "info" '/' = false := by decide
      by_cases hf : frag = ""
      · simp [hp, hf]
      · by_cases he : url.escapesWellFormed frag.data = true
        · simp [hp, hf, he]
        · simp [hp, hf, he]
    · cases hp : strings.HasPrefixChar key '/'
      · by_cases hf : frag = ""
        · simp [hp, hf, hk]
        · by_cases he : url.escapesWellFormed frag.data = true
          · simp [hp, hf, hk, he]
          · simp [hp, hf, hk, he]
      · cases hh : hier "embedded" key
        · by_cases hf : frag = ""
          · simp [hp, hf, hk, hh, hempty]
          · by_cases he : url.escapesWellFormed frag.data = true
            · simp [hp, hf, hk, he, hh, hempty]
            · simp [hp, hf, hk, he, hh, hempty]
        · simp [hp, hk, hh]
  · simp

/-! ## Resource resolution -/

/-- C1: whenever `handleEmbeddedResource` succeeds, the request URI parsed,
the parsed opaque key is in the store, and the result is exactly one entry
holding the request URI unchanged, MIME type text/plain and the text stored
under that key; and "embedded:info" resolves to the hello text. -/
theorem handleEmbeddedResource_ok (hier : url.HierStage) :
    (∀ (params : ReadResourceParams) (r : ReadResourceResult),
      handleEmbeddedResource hier params = .ok r →
      ∃ u text, url.Parse hier params.URI = .ok u ∧
        embeddedResources.lookup u.Opaque = some text ∧
        r.Contents = [{ URI := params.URI, MIMEType := "text/plain", Text := text }]) ∧
    handleEmbeddedResource hier ⟨"embedded:info"⟩ =
      .ok ⟨[{ URI := "embedded:info", MIMEType := "text/plain",
              Text := "This is the hello example server." }]⟩ := by
  refine ⟨?_, rfl⟩
  intro params r h
  unfold handleEmbeddedResource at h
  cases hp : url.Parse hier params.URI with
  | error e => simp [hp] at h
  | ok u =>
    simp only [hp] at h
    split at h
    · simp at h
    · cases hl : embeddedResources.lookup u.Opaque with
      | none => simp [hl] at h
      | some text =>
        simp only [hl] at h
        injection h with h
        exact ⟨u, text, rfl, hl, by rw [← h]⟩

/-- Witness for C1, at the URI "embedded:info?x=1". -/
theorem handleEmbeddedResource_ok_witness :
    ∃ u text, url.Parse hierAccept "embedded:info?x=1" = .ok u ∧
      embeddedResources.lookup u.Opaque = some text ∧
      [({ URI := "embedded:info?x=1", MIMEType := "text/plain",
          Text := "This is the hello example server." } : ResourceContents)] =
        [{ URI := "embedded:info?x=1", MIMEType := "text/plain", Text := text }] :=
  (handleEmbeddedResource_ok hierAccept).1 ⟨"embedded:info?x=1"⟩
    ⟨[{ URI := "embedded:info?x=1", MIMEType := "text/plain",
        Text := "This is the hello example server." }]⟩ rfl

/-- C4: when the URI parses with scheme "embedded" and the parsed opaque key
is not a key of the store, no result is returned and the error is the
unknown-resource error naming that key; "embedded:missing" is such a URI. -/
theorem handleEmbeddedResource_unknown (hier : url.HierStage) :
    (∀ (params : ReadResourceParams) (u : url.URL),
      url.Parse hier params.URI = .ok u → u.Scheme = "embedded" →
      u.Opaque ∉ embeddedResources.map Prod.fst →
      handleEmbeddedResource hier params = .error (.noEmbeddedResource u.Opaque)) ∧
    handleEmbeddedResource hier ⟨"embedded:missing"⟩ =
      .error (.noEmbeddedResource "missing") := by
  refine ⟨?_, rfl⟩
  intro params u hp hs hk
  have hl : embeddedResources.lookup u.Opaque = none := by
    rw [lookup_embeddedResources]
    have : u.Opaque ≠ "info" := by simpa [embeddedResources] using hk
    simp [this]
  simp [handleEmbeddedResource, hp, hs, hl]

/-- Witness for C4, at the URI "embedded:nothing?x#y". -/
theorem handleEmbeddedResource_unknown_witness :
    handleEmbeddedResource hierAccept ⟨"embedded:nothing?x#y"⟩ =
      .error (.noEmbeddedResource "nothing") :=
  (handleEmbeddedResource_unknown hierAccept).1 ⟨"embedded:nothing?x#y"⟩
    { Scheme := "embedded", Opaque := "nothing", RawQuery := "x" } rfl rfl (by decide)

/-- C5: when the URI parses and the parsed scheme is not "embedded", the
handler fails with the unsupported-scheme error whatever the opaque part is;
"bogus:info" parses with opaque part "info", a key of the store, and still
fails with the unsupported-scheme error. -/
theorem handleEmbeddedResource_wrongScheme (hier : url.HierStage) :
    (∀ (params : ReadResourceParams) (u : url.URL),
      url.Parse hier params.URI = .ok u → u.Scheme ≠ "embedded" →
      handleEmbeddedResource hier params = .error (.wrongScheme u.Scheme)) ∧
    (url.Parse hier "bogus:info" = .ok { Scheme := "bogus", Opaque := "info" } ∧
      "info" ∈ embeddedResources.map Prod.fst ∧
      handleEmbeddedResource hier ⟨"bogus:info"⟩ = .error (.wrongScheme "bogus")) := by
  refine ⟨?_, rfl, by decide, rfl⟩
  intro params u hp hs
  simp [handleEmbeddedResource, hp, hs]

/-- Witness for C5, at the scheme-less URI "info". -/
theorem handleEmbeddedResource_wrongScheme_witness :
    handleEmbeddedResource hierAccept ⟨"info"⟩ = .error (.wrongScheme "") :=
  (handleEmbeddedResource_wrongScheme hierAccept).1 ⟨"info"⟩ {} rfl (by decide)

/-- C6: when `url.Parse` rejects the URI, the handler returns no result and
the parse error itself, whatever the scheme or the store would say;
":::not a uri" is rejected for its leading colon. -/
theorem handleEmbeddedResource_invalidURI (hier : url.HierStage) :
    (∀ (params : ReadResourceParams) (e : url.Error),
      url.Parse hier params.URI = .error e →
      handleEmbeddedResource hier params = .error (.invalidURI e)) ∧
    handleEmbeddedResource hier ⟨":::not a uri"⟩ =
      .error (.invalidURI ⟨"parse", ":::not a uri", .missingProtocolScheme⟩) := by
  refine ⟨?_, rfl⟩
  intro params e hp
  simp [handleEmbeddedResource, hp]

/-- Witness for C6, at a URI whose fragment has a malformed escape. -/
theorem handleEmbeddedResource_invalidURI_witness :
    handleEmbeddedResource hierAccept ⟨"embedded:info#%zz"⟩ =
      .error (.invalidURI ⟨"parse", "embedded:info#%zz", .escapeError⟩) :=
  (handleEmbeddedResource_invalidURI hierAccept).1 ⟨"embedded:info#%zz"⟩ _ rfl

/-- C9, as amended: for every string k, resolving "embedded:" followed by k
succeeds only if k, cut at its first `#` (the fragment) and then at its first
`?` (the query), is exactly "info"; and "info" is the only key of the store. -/
theorem handleEmbeddedResource_embedded_only_info (hier : url.HierStage) :
    (∀ (k : String) (r : ReadResourceResult),
      handleEmbeddedResource hier ⟨"embedded:" ++ k⟩ = .ok r →
      (strings.Cut (strings.Cut k '#').1 '?').1 = "info") ∧
    (∀ key : String, key ∈ embeddedResources.map Prod.fst ↔ key = "info") := by
  refine ⟨?_, ?_⟩
  · intro k r h
    exact ((handleEmbeddedResource_embedded_iff hier k).mp ⟨r, h⟩).2.1
  · intro key
    simp [embeddedResources]

/-- Witness for C9 as amended, at k = "info?x=1#top". -/
theorem handleEmbeddedResource_embedded_only_info_witness :
    (strings.Cut (strings.Cut "info?x=1#top" '#').1 '?').1 = "info" :=
  (handleEmbeddedResource_embedded_only_info hierAccept).1 "info?x=1#top"
    ⟨[{ URI := "embedded:info?x=1#top", MIMEType := "text/plain",
        Text := "This is the hello example server." }]⟩ rfl

/-- C9 as stated fails at k = "info?x=1": the URI "embedded:info?x=1" resolves
to the hello text although k is not "info", because `url.Parse` splits the
query off the opaque part. -/
theorem handleEmbeddedResource_embedded_counterexample :
    handleEmbeddedResource hierAccept ⟨"embedded:" ++ "info?x=1"⟩ =
        .ok ⟨[{ URI := "embedded:info?x=1", MIMEType := "text/plain",
                Text := "This is the hello example server." }]⟩ ∧
      "info?x=1" ≠ "info" :=
  ⟨rfl, by decide⟩

/-! ## The `greet` tool and prompt -/

/-- C2: for every name, `SayHi` returns no error and exactly one text item,
"Hi " followed by the name; for "Ada" the text is "Hi Ada". -/
theorem SayHi_text :
    (∀ name : String,
      SayHi ⟨⟨name⟩⟩ = .ok { Content := [.text { Text := "Hi " ++ name }] }) ∧
    SayHi ⟨⟨"Ada"⟩⟩ = .ok { Content := [.text { Text := "Hi Ada" }] } :=
  ⟨fun _ => rfl, rfl⟩

/-- C3: for every argument map holding `v` under "name", `PromptHi` returns no
error and exactly one message, of role "user" and text "Say hi to " followed
by `v`; for the map sending "name" to "Ada" the text is "Say hi to Ada". -/
theorem PromptHi_message :
    (∀ (args : String → Option String) (v : String), args "name" = some v →
      ∃ r, PromptHi ⟨args⟩ = .ok r ∧
        r.Messages = [{ Role := "user", Content := .text { Text := "Say hi to " ++ v } }]) ∧
    (∃ r, PromptHi ⟨fun k => if k = "name" then some "Ada" else none⟩ = .ok r ∧
        r.Messages = [{ Role := "user", Content := .text { Text := "Say hi to Ada" } }]) := by
  refine ⟨?_, ⟨_, rfl, rfl⟩⟩
  intro args v h
  exact ⟨_, rfl, by simp [mapIndex, h]⟩

/-- Witness for C3, at a map sending every key to "Bob". -/
theorem PromptHi_message_witness :
    ∃ r, PromptHi ⟨fun _ => some "Bob"⟩ = .ok r ∧
      r.Messages = [{ Role := "user", Content := .text { Text := "Say hi to " ++ "Bob" } }] :=
  PromptHi_message.1 (fun _ => some "Bob") "Bob" rfl

/-! ## Transport selection -/

/-- C7: with the stdio flag set, whatever the two addresses are (the defaults
included) and whatever `server.Run` returns, `main` runs the stdio transport
and starts neither the HTTP nor the SSE listener, and never reaches the
receive on the error channel. -/
theorem main_stdin_exclusive :
    (∀ (httpAddr sseAddr : String) (runErr : Option String),
      Event.serverRunStdin ∈ main ⟨httpAddr, sseAddr, true⟩ runErr ∧
      (∀ e ∈ main ⟨httpAddr, sseAddr, true⟩ runErr,
        e.isHTTP = false ∧ e.isSSE = false ∧ e ≠ .fatalOnErrs)) ∧
    main { Flags.defaults with stdioFlag := true } none =
      [.newServer "greeter", .addTool "greet", .addPrompt "greet",
       .addResource "info" "text/plain" "embedded:info", .makeChan 2, .serverRunStdin] := by
  refine ⟨?_, rfl⟩
  intro httpAddr sseAddr runErr
  cases runErr <;> simp [main, Event.isHTTP, Event.isSSE]

/-- C8: with the stdio flag not set, the HTTP listener is started exactly when
the HTTP address is non-empty, and then at that address; the SSE listener is
started exactly when the SSE address is non-empty, and then at that address;
neither depends on the other address; with the default flags both start. -/
theorem main_listeners :
    (∀ (httpAddr sseAddr : String) (runErr : Option String),
      ((∃ e ∈ main ⟨httpAddr, sseAddr, false⟩ runErr, e.isHTTP = true) ↔ httpAddr ≠ "") ∧
      ((∃ e ∈ main ⟨httpAddr, sseAddr, false⟩ runErr, e.isSSE = true) ↔ sseAddr ≠ "") ∧
      (∀ a, Event.goHTTP a ∈ main ⟨httpAddr, sseAddr, false⟩ runErr ↔ (httpAddr ≠ "" ∧ a = httpAddr)) ∧
      (∀ a, Event.goSSE a ∈ main ⟨httpAddr, sseAddr, false⟩ runErr ↔ (sseAddr ≠ "" ∧ a = sseAddr)) ∧
      Event.serverRunStdin ∉ main ⟨httpAddr, sseAddr, false⟩ runErr) ∧
    Flags.defaults = ⟨"localhost:3001", "localhost:3002", false⟩ ∧
    main Flags.defaults none =
      [.newServer "greeter", .addTool "greet", .addPrompt "greet",
       .addResource "info" "text/plain" "embedded:info", .makeChan 2,
       .goHTTP "localhost:3001", .goSSE "localhost:3002",
       .logPrintf "If you want to use stdin/stdout, pass the --stdio flag", .fatalOnErrs] := by
  refine ⟨?_, rfl, rfl⟩
  intro httpAddr sseAddr runErr
  have hm : main ⟨httpAddr, sseAddr, false⟩ runErr =
      [.newServer "greeter", .addTool "greet", .addPrompt "greet",
       .addResource "info" "text/plain" "embedded:info", .makeChan 2] ++
      (if httpAddr != "" then [.goHTTP httpAddr] else []) ++
      (if sseAddr != "" then [.goSSE sseAddr] else []) ++
      [.logPrintf "If you want to use stdin/stdout, pass the --stdio flag", .fatalOnErrs] := rfl
  rw [hm]
  by_cases hh : httpAddr = "" <;> by_cases hs : sseAddr = "" <;>
    simp [Event.isHTTP, Event.isSSE, hh, hs]

end Greeter
